import Mathlib

/-!
Shallow embedding of the wave-classifier script (Wave_classifier.py).

The script parses a bespoke waveform text file, extracts FFT-based
features, drives a spiking network from an external framework, and
accumulates accuracy and confusion-matrix statistics.  All calls into
the external framework (numpy FFT, torch tensors, bindsnet encoders,
network simulation, evaluation helpers) are modelled as abstract
function parameters collected in a `Framework` structure; the script's
own control flow, list bookkeeping, slicing arithmetic and accumulator
updates are modelled concretely.  Text lines are modelled as `List Char`
so that all string manipulation is kernel-computable.
-/

namespace WaveClassifier

/-- Helper for whitespace splitting of a line of characters: `acc` holds the
characters of the token currently being read, in reverse order.  Empty tokens
are never produced, matching the behaviour of a no-argument string split. -/
def wsSplitAux : List Char → List Char → List (List Char)
  | [], acc => if acc = [] then [] else [acc.reverse]
  | c :: cs, acc =>
    if c.isWhitespace then
      if acc = [] then wsSplitAux cs []
      else acc.reverse :: wsSplitAux cs []
    else wsSplitAux cs (c :: acc)

/-- Whitespace split of a text line (the split applied to each data line). -/
def pySplit (s : List Char) : List (List Char) := wsSplitAux s []

/-- The slice l[a:b] of a list, for nonnegative bounds a and b. -/
def pySlice {α : Type} (l : List α) (a b : ℕ) : List α := (l.take b).drop a

/-- 1-d broadcast of an integer tensor to length n: a one-element tensor is
stretched, any other tensor is left alone. -/
def bcastI (n : ℕ) (a : List ℤ) : List ℤ :=
  if a.length = 1 then List.replicate n (a.headD 0) else a

/-- 1-d broadcast of a boolean tensor to length n. -/
def bcastB (n : ℕ) (a : List Bool) : List Bool :=
  if a.length = 1 then List.replicate n (a.headD false) else a

/-- Elementwise equality of two 1-d integer tensors with broadcasting. -/
def tEq (a b : List ℤ) : List Bool :=
  List.zipWith (fun x y => decide (x = y))
    (bcastI (max a.length b.length) a) (bcastI (max a.length b.length) b)

/-- Elementwise conjunction of two 1-d boolean tensors with broadcasting. -/
def tAnd (a b : List Bool) : List Bool :=
  List.zipWith and (bcastB (max a.length b.length) a) (bcastB (max a.length b.length) b)

/-- Sum of a boolean tensor: the number of true entries. -/
def tSum (a : List Bool) : ℕ := a.count true

/-- One parsed sample: the spike-encoded feature tensor together with the
class label taken from the final token of the line. -/
structure WaveDatum (C E : Type) where
  encodedImage : E
  label : C
  deriving DecidableEq

/-- The concatenated FFT features of one parsed line: the FFTs of the token
slices [16:80], [96:160], [192:256] and [256:len-1], concatenated in order.
The FFT itself is the external numeric routine, passed in as fftF. -/
def linedataFft {C : Type} (fftF : List C → List C) (linedata : List C) : List C :=
  fftF (pySlice linedata 16 80) ++ fftF (pySlice linedata 96 160) ++
    fftF (pySlice linedata 192 256) ++
    fftF (pySlice linedata 256 (linedata.length - 1))

/-- The intensity-scaled magnitudes of the FFT features: the slice [0:len] of
the feature list, each entry x replaced by intensity * abs x.  The complex
magnitude cabs and the numeric multiplication fmul are external. -/
def linedataIntensity {C F : Type} (cabs : C → F) (fmul : F → F → F) (intensity : F)
    (linedataFftV : List C) : List F :=
  (pySlice linedataFftV 0 linedataFftV.length).map (fun x => fmul intensity (cabs x))

/-- The file-reading loop of the script: one text line at a time, a line whose
first character is the hash mark is skipped, the line is split on whitespace
and its tokens parsed as complex numbers (parseC), an empty token list is
skipped, and otherwise the FFT features are computed, intensity-scaled,
encoded (enc), and stored together with the final token as label.  When no
encoder was selected (enc = none) the first encoding attempt fails, modelling
the name error raised at the first use of the undefined encoder variable. -/
def waveLoop {C F E : Type} (parseC : List Char → C) (fftF : List C → List C)
    (cabs : C → F) (fmul : F → F → F) (intensity : F)
    (enc : Option (List F → E)) : List (List Char) → Except Unit (List (WaveDatum C E))
  | [] => Except.ok []
  | line :: rest =>
    if line.head? = some '#' then waveLoop parseC fftF cabs fmul intensity enc rest
    else
      let linedata := (pySplit line).map parseC
      if h : linedata.length = 0 then waveLoop parseC fftF cabs fmul intensity enc rest
      else
        match enc with
        | none => Except.error ()
        | some e =>
          let li := linedataIntensity cabs fmul intensity (linedataFft fftF linedata)
          let cl := linedata.getLast (List.length_pos.mp (Nat.pos_of_ne_zero h))
          (waveLoop parseC fftF cabs fmul intensity enc rest).map
            (fun ws => { encodedImage := e li, label := cl } :: ws)

/-- Whether a text line contributes a sample: not a comment line and a
non-empty token list. -/
def lineContributes (line : List Char) : Bool :=
  if line.head? = some '#' then false else !(pySplit line).isEmpty

/-- The six encoder classes of the selection chain. -/
inductive EncoderKind
  | poissonEncoder
  | rankOrderEncoder
  | rankOrderTTFSEncoder
  | bernoulliEncoder
  | singleEncoder
  | repeatEncoder
  deriving DecidableEq

/-- The six encoder names recognized by the selection chain. -/
def recognizedEncoders : List String :=
  ["PoissonEncoder", "RankOrderEncoder", "RankOrderTTFSEncoder",
   "BernoulliEncoder", "SingleEncoder", "RepeatEncoder"]

/-- The encoder selection chain: returns the selected encoder (none when the
name is unrecognized, modelling the variable remaining unbound) together with
the list of messages printed. -/
def selectEncoder (name : String) : Option EncoderKind × List String :=
  if name = "PoissonEncoder" then (some EncoderKind.poissonEncoder, [])
  else if name = "RankOrderEncoder" then (some EncoderKind.rankOrderEncoder, [])
  else if name = "RankOrderTTFSEncoder" then (some EncoderKind.rankOrderTTFSEncoder, [])
  else if name = "BernoulliEncoder" then (some EncoderKind.bernoulliEncoder, [])
  else if name = "SingleEncoder" then (some EncoderKind.singleEncoder, [])
  else if name = "RepeatEncoder" then (some EncoderKind.repeatEncoder, [])
  else (none, ["Error!! There is no such encoder!!"])

/-- Encoder selection followed by the file-reading loop: encImpl gives the
external encoding function of each encoder kind. -/
def runParseStage {C F E : Type} (parseC : List Char → C) (fftF : List C → List C)
    (cabs : C → F) (fmul : F → F → F) (intensity : F)
    (encImpl : EncoderKind → List F → E) (name : String)
    (lines : List (List Char)) : List String × Except Unit (List (WaveDatum C E)) :=
  ((selectEncoder name).2,
   waveLoop parseC fftF cabs fmul intensity ((selectEncoder name).1.map encImpl) lines)

/-- Models the reassignment of the train sample count to the size of the
train split, discarding the command-line value. -/
def effectiveNTrain {α : Type} (cmdNTrain : ℕ) (trainData : List α) : ℕ :=
  trainData.length

/-- Models the reassignment of the test sample count to the size of the
test split, discarding the command-line value. -/
def effectiveNTest {α : Type} (cmdNTest : ℕ) (testData : List α) : ℕ :=
  testData.length

/-- The external framework calls made by the script, as abstract operations:
tensor reshaping of a sample, the network simulation step (its random
conductance bounds and record lists folded into the abstract transition,
returning the new network state and the excitatory-layer spike record of
shape time/dt by n_neurons), the network state reset, the integer cast of a
label tensor, and the three evaluation helpers over a spike record. -/
structure Framework (C E Inp Asn Prp Rt Net : Type) where
  view : E → Inp
  runNet : Net → Inp → Net × List (List ℚ)
  resetNet : Net → Net
  lblLong : C → ℤ
  allActivity : List (List (List ℚ)) → Asn → ℕ → List ℤ
  proportionWeighting : List (List (List ℚ)) → Asn → Prp → ℕ → List ℤ
  assignLabels : List (List (List ℚ)) → List ℤ → ℕ → Rt → Asn × Prp × Rt

/-- Observable simulation events of a loop iteration: one network simulation
call (with the number of timesteps passed to it) and one state reset. -/
inductive Event
  | run (timeArg : ℕ)
  | reset
  deriving DecidableEq

/-- State carried through the training loop. -/
structure TrainState (C Asn Prp Rt Net : Type) where
  labels : List C
  accAll : List ℚ
  accProp : List ℚ
  assignments : Asn
  proportions : Prp
  rates : Rt
  spikeRecord : List (List (List ℚ))
  net : Net
  deriving DecidableEq

variable {C E Inp Asn Prp Rt Net : Type}

/-- The periodic scoring block of the training loop: at a step that is a
positive multiple of the update interval, append the all-activity and the
proportion-weighting accuracy percentage over the accumulated labels, update
assignments, proportions and rates from the spike record and those labels,
and empty the label list; at any other step, do nothing. -/
def scoreBlock (fw : Framework C E Inp Asn Prp Rt Net) (u nClasses : ℕ) (step : ℕ)
    (st : TrainState C Asn Prp Rt Net) : TrainState C Asn Prp Rt Net :=
  if step % u = 0 ∧ 0 < step then
    let labelTensor := st.labels.map fw.lblLong
    let allActivityPred := fw.allActivity st.spikeRecord st.assignments nClasses
    let proportionPred :=
      fw.proportionWeighting st.spikeRecord st.assignments st.proportions nClasses
    let apr := fw.assignLabels st.spikeRecord labelTensor nClasses st.rates
    { st with
      accAll := st.accAll ++
        [100 * (tSum (tEq labelTensor allActivityPred) : ℚ) / (labelTensor.length : ℚ)]
      accProp := st.accProp ++
        [100 * (tSum (tEq labelTensor proportionPred) : ℚ) / (labelTensor.length : ℚ)]
      assignments := apr.1
      proportions := apr.2.1
      rates := apr.2.2
      labels := [] }
  else st

/-- One iteration of the training loop body: the periodic scoring block, the
append of the sample's label, one network simulation call, the write of the
excitatory spike record into row step mod u of the rolling buffer, and the
state reset.  Also returns the simulation events of the iteration. -/
def trainStep (fw : Framework C E Inp Asn Prp Rt Net) (u nClasses timeArg : ℕ)
    (step : ℕ) (batch : WaveDatum C E) (st : TrainState C Asn Prp Rt Net) :
    TrainState C Asn Prp Rt Net × List Event :=
  let inputs := fw.view batch.encodedImage
  let st1 := scoreBlock fw u nClasses step st
  let st2 := { st1 with labels := st1.labels ++ [batch.label] }
  let runOut := fw.runNet st2.net inputs
  let st3 := { st2 with net := runOut.1, spikeRecord := st2.spikeRecord.set (step % u) runOut.2 }
  let st4 := { st3 with net := fw.resetNet st3.net }
  (st4, [Event.run timeArg, Event.reset])

/-- The training loop over enumerated samples, starting at the given step
index, breaking out as soon as the step index exceeds nTrain. -/
def trainLoop (fw : Framework C E Inp Asn Prp Rt Net) (nTrain u nClasses timeArg : ℕ) :
    ℕ → List (WaveDatum C E) → TrainState C Asn Prp Rt Net →
    TrainState C Asn Prp Rt Net × List Event
  | _, [], st => (st, [])
  | step, batch :: rest, st =>
    if nTrain < step then (st, [])
    else
      let out := trainStep fw u nClasses timeArg step batch st
      let outRest := trainLoop fw nTrain u nClasses timeArg (step + 1) rest out.1
      (outRest.1, out.2 ++ outRest.2)

/-- The guard-free training loop, which processes every sample exactly once.
It follows the spec reading that every sample of the split is processed; the
guarded loop is proved to coincide with it when the indices stay in bound. -/
def trainRunAll (fw : Framework C E Inp Asn Prp Rt Net) (u nClasses timeArg : ℕ) :
    ℕ → List (WaveDatum C E) → TrainState C Asn Prp Rt Net →
    TrainState C Asn Prp Rt Net × List Event
  | _, [], st => (st, [])
  | step, batch :: rest, st =>
    let out := trainStep fw u nClasses timeArg step batch st
    let outRest := trainRunAll fw u nClasses timeArg (step + 1) rest out.1
    (outRest.1, out.2 ++ outRest.2)

/-- One training epoch: the label list is emptied at the top of the epoch,
then the loop runs over the enumerated samples from step 0. -/
def trainEpoch (fw : Framework C E Inp Asn Prp Rt Net) (nTrain u nClasses timeArg : ℕ)
    (data : List (WaveDatum C E)) (st : TrainState C Asn Prp Rt Net) :
    TrainState C Asn Prp Rt Net × List Event :=
  trainLoop fw nTrain u nClasses timeArg 0 data { st with labels := [] }

/-- The spike-record buffer allocated before the training loop: a zero tensor
of shape (update_interval, time/dt, n_neurons). -/
def initSpikeRecord (u timeSteps n : ℕ) : List (List (List ℚ)) :=
  List.replicate u (List.replicate timeSteps (List.replicate n (0 : ℚ)))

/-- A 2-d tensor of shape a by b. -/
def matShape (m : List (List ℚ)) (a b : ℕ) : Prop :=
  m.length = a ∧ ∀ r ∈ m, r.length = b

/-- A 3-d tensor of shape a by b by c. -/
def bufShape (buf : List (List (List ℚ))) (a b c : ℕ) : Prop :=
  buf.length = a ∧ ∀ m ∈ buf, matShape m b c

/-- The confusion-matrix accumulator of the testing loop. -/
structure ConfusionMatrix where
  TP : ℚ
  FP : ℚ
  TN : ℚ
  FN : ℚ
  deriving DecidableEq

/-- The zero-initialised confusion matrix. -/
def confMatZero : ConfusionMatrix := ⟨0, 0, 0, 0⟩

/-- The positive-class reference tensor of the testing loop: all zeros on
gpu, all ones otherwise, of the label tensor's shape. -/
def pTensor (gpu : Bool) (shape : ℕ) : List ℤ :=
  if gpu then List.replicate shape 0 else List.replicate shape 1

/-- The negative-class reference tensor of the testing loop: all ones on
gpu, all zeros otherwise, of the label tensor's shape. -/
def nTensor (gpu : Bool) (shape : ℕ) : List ℤ :=
  if gpu then List.replicate shape 1 else List.replicate shape 0

/-- One confusion-matrix update of the testing loop, from the label tensor
and the all-activity prediction of one sample. -/
def confStep (gpu : Bool) (labelTensor allActivityPred : List ℤ)
    (cm : ConfusionMatrix) : ConfusionMatrix :=
  let P := pTensor gpu labelTensor.length
  let N := nTensor gpu labelTensor.length
  { TP := cm.TP + (tSum (tAnd (tEq allActivityPred P) (tEq labelTensor P)) : ℚ)
    FP := cm.FP + (tSum (tAnd (tEq allActivityPred P) (tEq labelTensor N)) : ℚ)
    TN := cm.TN + (tSum (tAnd (tEq allActivityPred N) (tEq labelTensor N)) : ℚ)
    FN := cm.FN + (tSum (tAnd (tEq allActivityPred N) (tEq labelTensor P)) : ℚ) }

/-- Confusion-matrix accumulation over a sequence of label tensors paired
with all-activity predictions. -/
def confAccum (gpu : Bool) (pairs : List (List ℤ × List ℤ))
    (cm : ConfusionMatrix) : ConfusionMatrix :=
  pairs.foldl (fun acc p => confStep gpu p.1 p.2 acc) cm

/-- State carried through the testing loop. -/
structure TestState (Net : Type) where
  accAll : ℚ
  accProp : ℚ
  cm : ConfusionMatrix
  spikeRecord : List (List (List ℚ))
  net : Net
  deriving DecidableEq

/-- One iteration of the testing loop body: one network simulation call, the
write of the spike record into row 0, the two accuracy-count updates, the
confusion-matrix update from the all-activity prediction, and the state
reset.  The assignments and proportions are the finals of training. -/
def testStep (fw : Framework C E Inp Asn Prp Rt Net) (gpu : Bool) (nClasses timeArg : ℕ)
    (assignments : Asn) (proportions : Prp) (batch : WaveDatum C E)
    (st : TestState Net) : TestState Net × List Event :=
  let inputs := fw.view batch.encodedImage
  let runOut := fw.runNet st.net inputs
  let sr := st.spikeRecord.set 0 runOut.2
  let labelTensor : List ℤ := [fw.lblLong batch.label]
  let allActivityPred := fw.allActivity sr assignments nClasses
  let proportionPred := fw.proportionWeighting sr assignments proportions nClasses
  ({ accAll := st.accAll + (tSum (tEq labelTensor allActivityPred) : ℚ)
     accProp := st.accProp + (tSum (tEq labelTensor proportionPred) : ℚ)
     cm := confStep gpu labelTensor allActivityPred st.cm
     spikeRecord := sr
     net := fw.resetNet runOut.1 },
   [Event.run timeArg, Event.reset])

/-- The testing loop over enumerated samples, starting at the given step
index, breaking out as soon as the step index exceeds nTest. -/
def testLoop (fw : Framework C E Inp Asn Prp Rt Net) (gpu : Bool)
    (nTest nClasses timeArg : ℕ) (assignments : Asn) (proportions : Prp) :
    ℕ → List (WaveDatum C E) → TestState Net → TestState Net × List Event
  | _, [], st => (st, [])
  | step, batch :: rest, st =>
    if nTest < step then (st, [])
    else
      let out := testStep fw gpu nClasses timeArg assignments proportions batch st
      let outRest :=
        testLoop fw gpu nTest nClasses timeArg assignments proportions (step + 1) rest out.1
      (outRest.1, out.2 ++ outRest.2)

/-- The guard-free testing loop, which processes every sample exactly once. -/
def testRunAll (fw : Framework C E Inp Asn Prp Rt Net) (gpu : Bool)
    (nClasses timeArg : ℕ) (assignments : Asn) (proportions : Prp) :
    ℕ → List (WaveDatum C E) → TestState Net → TestState Net × List Event
  | _, [], st => (st, [])
  | step, batch :: rest, st =>
    let out := testStep fw gpu nClasses timeArg assignments proportions batch st
    let outRest :=
      testRunAll fw gpu nClasses timeArg assignments proportions (step + 1) rest out.1
    (outRest.1, out.2 ++ outRest.2)

/-- The simulation-event trace of n loop iterations: one simulation call of
timeArg timesteps followed by one reset, per sample. -/
def runResetTrace (timeArg n : ℕ) : List Event :=
  (List.replicate n [Event.run timeArg, Event.reset]).flatten

/-- The length of the accumulated label list at the start of step s of an
epoch, for update interval u. -/
def labLen (u s : ℕ) : ℕ := if s = 0 then 0 else (s - 1) % u + 1

theorem scoreBlock_labels (fw : Framework C E Inp Asn Prp Rt Net) (u nClasses step : ℕ)
    (st : TrainState C Asn Prp Rt Net) :
    (scoreBlock fw u nClasses step st).labels =
      if step % u = 0 ∧ 0 < step then [] else st.labels := by
  unfold scoreBlock; split <;> rfl

theorem scoreBlock_net (fw : Framework C E Inp Asn Prp Rt Net) (u nClasses step : ℕ)
    (st : TrainState C Asn Prp Rt Net) :
    (scoreBlock fw u nClasses step st).net = st.net := by
  unfold scoreBlock; split <;> rfl

theorem scoreBlock_spikeRecord (fw : Framework C E Inp Asn Prp Rt Net) (u nClasses step : ℕ)
    (st : TrainState C Asn Prp Rt Net) :
    (scoreBlock fw u nClasses step st).spikeRecord = st.spikeRecord := by
  unfold scoreBlock; split <;> rfl

theorem trainStep_labels (fw : Framework C E Inp Asn Prp Rt Net) (u nClasses tm step : ℕ)
    (batch : WaveDatum C E) (st : TrainState C Asn Prp Rt Net) :
    ((trainStep fw u nClasses tm step batch st).1).labels =
      (scoreBlock fw u nClasses step st).labels ++ [batch.label] := rfl

theorem trainStep_spikeRecord (fw : Framework C E Inp Asn Prp Rt Net) (u nClasses tm step : ℕ)
    (batch : WaveDatum C E) (st : TrainState C Asn Prp Rt Net) :
    ((trainStep fw u nClasses tm step batch st).1).spikeRecord =
      st.spikeRecord.set (step % u) (fw.runNet st.net (fw.view batch.encodedImage)).2 := by
  show ((scoreBlock fw u nClasses step st).spikeRecord.set (step % u)
      (fw.runNet (scoreBlock fw u nClasses step st).net (fw.view batch.encodedImage)).2) = _
  rw [scoreBlock_net, scoreBlock_spikeRecord]

theorem trainStep_events (fw : Framework C E Inp Asn Prp Rt Net) (u nClasses tm step : ℕ)
    (batch : WaveDatum C E) (st : TrainState C Asn Prp Rt Net) :
    (trainStep fw u nClasses tm step batch st).2 = [Event.run tm, Event.reset] := rfl

theorem mod_pred_of_mod_ne_zero (u s : ℕ) (hu : 0 < u) (h : s % u ≠ 0) :
    s % u = (s - 1) % u + 1 := by
  have hd := Nat.div_add_mod s u
  have hlt : s % u < u := Nat.mod_lt _ hu
  have h1 : s - 1 = u * (s / u) + (s % u - 1) := by omega
  have h2 : (s - 1) % u = s % u - 1 := by
    rw [h1, Nat.mul_add_mod, Nat.mod_eq_of_lt (by omega)]
  omega

theorem mod_pred_of_mod_eq_zero (u s : ℕ) (hu : 0 < u) (hs : 0 < s) (h : s % u = 0) :
    (s - 1) % u = u - 1 := by
  have hd := Nat.div_add_mod s u
  have hq : 0 < s / u := by
    rcases Nat.eq_zero_or_pos (s / u) with h0 | h0
    · rw [h0] at hd; omega
    · exact h0
  have h2 : u * (s / u - 1) + u = u * (s / u) := by
    conv_rhs => rw [← Nat.succ_pred_eq_of_pos hq]
    rw [Nat.mul_succ, Nat.pred_eq_sub_one]
  have h1 : s - 1 = u * (s / u - 1) + (u - 1) := by omega
  rw [h1, Nat.mul_add_mod, Nat.mod_eq_of_lt (by omega)]

theorem labLen_flush (u s : ℕ) (hu : 0 < u) (hs : 0 < s) (h : s % u = 0) :
    labLen u s = u := by
  unfold labLen
  rw [if_neg (by omega), mod_pred_of_mod_eq_zero u s hu hs h]
  omega

theorem labLen_step (u s : ℕ) (hu : 0 < u) :
    (if s % u = 0 ∧ 0 < s then 0 else labLen u s) + 1 = labLen u (s + 1) := by
  unfold labLen
  rcases Nat.eq_zero_or_pos s with h0 | hs
  · subst h0; simp
  · have hne : ¬ s = 0 := by omega
    have hr : s + 1 - 1 = s := by omega
    by_cases hm : s % u = 0
    · rw [if_pos ⟨hm, hs⟩, if_neg (by omega), hr, hm]
    · rw [if_neg (by tauto), if_neg hne, if_neg (by omega), hr,
        mod_pred_of_mod_ne_zero u s hu hm]

theorem trainStep_labels_len (fw : Framework C E Inp Asn Prp Rt Net) (u nClasses tm s : ℕ)
    (hu : 0 < u) (batch : WaveDatum C E) (st : TrainState C Asn Prp Rt Net)
    (h : st.labels.length = labLen u s) :
    ((trainStep fw u nClasses tm s batch st).1).labels.length = labLen u (s + 1) := by
  rw [trainStep_labels, scoreBlock_labels, List.length_append, ← labLen_step u s hu]
  split
  · rfl
  · rw [h]; rfl

theorem trainRunAll_labels_len (fw : Framework C E Inp Asn Prp Rt Net)
    (u nClasses tm : ℕ) (hu : 0 < u) (data : List (WaveDatum C E)) :
    ∀ (s0 : ℕ) (st : TrainState C Asn Prp Rt Net),
      st.labels.length = labLen u s0 →
      ((trainRunAll fw u nClasses tm s0 data st).1).labels.length =
        labLen u (s0 + data.length) := by
  induction data with
  | nil => intro s0 st h; simpa using h
  | cons batch rest ih =>
    intro s0 st h
    have hstep := trainStep_labels_len fw u nClasses tm s0 hu batch st h
    have := ih (s0 + 1) (trainStep fw u nClasses tm s0 batch st).1 hstep
    simp only [trainRunAll, List.length_cons]
    rw [show s0 + (rest.length + 1) = s0 + 1 + rest.length by omega]
    exact this

theorem trainLoop_eq_trainRunAll (fw : Framework C E Inp Asn Prp Rt Net)
    (nTrain u nClasses tm : ℕ) (data : List (WaveDatum C E)) :
    ∀ (s0 : ℕ) (st : TrainState C Asn Prp Rt Net), s0 + data.length ≤ nTrain + 1 →
      trainLoop fw nTrain u nClasses tm s0 data st =
        trainRunAll fw u nClasses tm s0 data st := by
  induction data with
  | nil => intro s0 st _; rfl
  | cons b rest ih =>
    intro s0 st h
    simp only [List.length_cons] at h
    have hg : ¬ nTrain < s0 := by omega
    simp only [trainLoop, trainRunAll, if_neg hg]
    rw [ih (s0 + 1) _ (by omega)]

theorem trainRunAll_events (fw : Framework C E Inp Asn Prp Rt Net)
    (u nClasses tm : ℕ) (data : List (WaveDatum C E)) :
    ∀ (s0 : ℕ) (st : TrainState C Asn Prp Rt Net),
      (trainRunAll fw u nClasses tm s0 data st).2 = runResetTrace tm data.length := by
  induction data with
  | nil => intro s0 st; rfl
  | cons b rest ih =>
    intro s0 st
    simp only [trainRunAll, List.length_cons]
    rw [ih]
    simp [runResetTrace, List.replicate_succ, trainStep_events]

theorem testStep_events (fw : Framework C E Inp Asn Prp Rt Net) (gpu : Bool)
    (nClasses tm : ℕ) (assignments : Asn) (proportions : Prp)
    (batch : WaveDatum C E) (st : TestState Net) :
    (testStep fw gpu nClasses tm assignments proportions batch st).2 =
      [Event.run tm, Event.reset] := rfl

theorem testLoop_eq_testRunAll (fw : Framework C E Inp Asn Prp Rt Net) (gpu : Bool)
    (nTest nClasses tm : ℕ) (assignments : Asn) (proportions : Prp)
    (data : List (WaveDatum C E)) :
    ∀ (s0 : ℕ) (st : TestState Net), s0 + data.length ≤ nTest + 1 →
      testLoop fw gpu nTest nClasses tm assignments proportions s0 data st =
        testRunAll fw gpu nClasses tm assignments proportions s0 data st := by
  induction data with
  | nil => intro s0 st _; rfl
  | cons b rest ih =>
    intro s0 st h
    simp only [List.length_cons] at h
    have hg : ¬ nTest < s0 := by omega
    simp only [testLoop, testRunAll, if_neg hg]
    rw [ih (s0 + 1) _ (by omega)]

theorem waveLoop_comment {Cx F E : Type} (parseC : List Char → Cx) (fftF : List Cx → List Cx)
    (cabs : Cx → F) (fmul : F → F → F) (intensity : F) (enc : Option (List F → E))
    (line : List Char) (rest : List (List Char)) (h : line.head? = some '#') :
    waveLoop parseC fftF cabs fmul intensity enc (line :: rest) =
      waveLoop parseC fftF cabs fmul intensity enc rest := by
  simp only [waveLoop, if_pos h]

theorem waveLoop_empty {Cx F E : Type} (parseC : List Char → Cx) (fftF : List Cx → List Cx)
    (cabs : Cx → F) (fmul : F → F → F) (intensity : F) (enc : Option (List F → E))
    (line : List Char) (rest : List (List Char)) (hc : ¬ line.head? = some '#')
    (he : pySplit line = []) :
    waveLoop parseC fftF cabs fmul intensity enc (line :: rest) =
      waveLoop parseC fftF cabs fmul intensity enc rest := by
  have he' : ((pySplit line).map parseC).length = 0 := by
    rw [List.length_map, he]; rfl
  simp only [waveLoop, if_neg hc, dif_pos he']

theorem waveLoop_sample {Cx F E : Type} (parseC : List Char → Cx) (fftF : List Cx → List Cx)
    (cabs : Cx → F) (fmul : F → F → F) (intensity : F) (e : List F → E)
    (line : List Char) (rest : List (List Char)) (hc : ¬ line.head? = some '#')
    (hne : pySplit line ≠ []) :
    waveLoop parseC fftF cabs fmul intensity (some e) (line :: rest) =
      (waveLoop parseC fftF cabs fmul intensity (some e) rest).map
        (fun ws =>
          { encodedImage := e (linedataIntensity cabs fmul intensity
              (linedataFft fftF ((pySplit line).map parseC))),
            label := parseC ((pySplit line).getLast hne) } :: ws) := by
  have hne' : ¬ ((pySplit line).map parseC).length = 0 := by
    rw [List.length_map]
    exact fun h => hne (List.length_eq_zero.mp h)
  simp only [waveLoop, if_neg hc, dif_neg hne']
  rw [List.getLast_map]

theorem waveLoop_none {Cx F E : Type} (parseC : List Char → Cx) (fftF : List Cx → List Cx)
    (cabs : Cx → F) (fmul : F → F → F) (intensity : F) (lines : List (List Char)) :
    waveLoop (E := E) parseC fftF cabs fmul intensity none lines =
      (if lines.any lineContributes then Except.error () else Except.ok []) := by
  induction lines with
  | nil => rfl
  | cons line rest ih =>
    by_cases hc : line.head? = some '#'
    · have hl : lineContributes line = false := by simp [lineContributes, hc]
      simp only [waveLoop, if_pos hc, ih, List.any_cons, hl, Bool.false_or]
    · by_cases he : pySplit line = []
      · have he' : ((pySplit line).map parseC).length = 0 := by
          rw [List.length_map, he]; rfl
        have hl : lineContributes line = false := by
          simp [lineContributes, hc, List.isEmpty_iff, he]
        simp only [waveLoop, if_neg hc, dif_pos he', ih, List.any_cons, hl, Bool.false_or]
      · have he' : ¬ ((pySplit line).map parseC).length = 0 := by
          rw [List.length_map]
          exact fun h => he (List.length_eq_zero.mp h)
        have hl : lineContributes line = true := by
          simp [lineContributes, hc, List.isEmpty_iff, he]
        simp only [waveLoop, if_neg hc, dif_neg he', List.any_cons, hl, Bool.true_or,
          if_pos]

theorem initSpikeRecord_shape (u timeSteps n : ℕ) :
    bufShape (initSpikeRecord u timeSteps n) u timeSteps n := by
  refine ⟨List.length_replicate .., fun m hm => ?_⟩
  rw [List.eq_of_mem_replicate hm]
  exact ⟨List.length_replicate .., fun r hr => by
    rw [List.eq_of_mem_replicate hr]; exact List.length_replicate ..⟩

theorem bufShape_set (buf : List (List (List ℚ))) (a b c i : ℕ) (row : List (List ℚ))
    (hbuf : bufShape buf a b c) (hrow : matShape row b c) :
    bufShape (buf.set i row) a b c := by
  refine ⟨by rw [List.length_set]; exact hbuf.1, fun m hm => ?_⟩
  rcases List.mem_or_eq_of_mem_set hm with h | h
  · exact hbuf.2 m h
  · rw [h]; exact hrow

theorem trainRunAll_bufShape (fw : Framework C E Inp Asn Prp Rt Net)
    (u nClasses tm a b c : ℕ)
    (hrow : ∀ (net : Net) (inp : Inp), matShape ((fw.runNet net inp).2) b c)
    (data : List (WaveDatum C E)) :
    ∀ (s0 : ℕ) (st : TrainState C Asn Prp Rt Net), bufShape st.spikeRecord a b c →
      bufShape (((trainRunAll fw u nClasses tm s0 data st).1).spikeRecord) a b c := by
  induction data with
  | nil => intro s0 st h; exact h
  | cons batch rest ih =>
    intro s0 st h
    simp only [trainRunAll]
    refine ih (s0 + 1) _ ?_
    rw [trainStep_spikeRecord]
    exact bufShape_set _ _ _ _ _ _ h (hrow _ _)

theorem trainLoop_bufShape (fw : Framework C E Inp Asn Prp Rt Net)
    (nTrain u nClasses tm a b c : ℕ)
    (hrow : ∀ (net : Net) (inp : Inp), matShape ((fw.runNet net inp).2) b c)
    (data : List (WaveDatum C E)) :
    ∀ (s0 : ℕ) (st : TrainState C Asn Prp Rt Net), bufShape st.spikeRecord a b c →
      bufShape (((trainLoop fw nTrain u nClasses tm s0 data st).1).spikeRecord) a b c := by
  induction data with
  | nil => intro s0 st h; exact h
  | cons batch rest ih =>
    intro s0 st h
    by_cases hg : nTrain < s0
    · simp only [trainLoop, if_pos hg]; exact h
    · simp only [trainLoop, if_neg hg]
      refine ih (s0 + 1) _ ?_
      rw [trainStep_spikeRecord]
      exact bufShape_set _ _ _ _ _ _ h (hrow _ _)

theorem testRunAll_events (fw : Framework C E Inp Asn Prp Rt Net) (gpu : Bool)
    (nClasses tm : ℕ) (assignments : Asn) (proportions : Prp)
    (data : List (WaveDatum C E)) :
    ∀ (s0 : ℕ) (st : TestState Net),
      (testRunAll fw gpu nClasses tm assignments proportions s0 data st).2 =
        runResetTrace tm data.length := by
  induction data with
  | nil => intro s0 st; rfl
  | cons b rest ih =>
    intro s0 st
    simp only [testRunAll, List.length_cons]
    rw [ih]
    simp [runResetTrace, List.replicate_succ, testStep_events]

theorem scoreBlock_flush (fw : Framework C E Inp Asn Prp Rt Net) (u nClasses s : ℕ)
    (st : TrainState C Asn Prp Rt Net) (hm : s % u = 0) (hs : 0 < s)
    (hlen : st.labels.length = u) :
    scoreBlock fw u nClasses s st =
      { st with
        accAll := st.accAll ++ [100 * (tSum (tEq (st.labels.map fw.lblLong)
          (fw.allActivity st.spikeRecord st.assignments nClasses)) : ℚ) / (u : ℚ)]
        accProp := st.accProp ++ [100 * (tSum (tEq (st.labels.map fw.lblLong)
          (fw.proportionWeighting st.spikeRecord st.assignments st.proportions nClasses)) : ℚ) /
            (u : ℚ)]
        assignments :=
          (fw.assignLabels st.spikeRecord (st.labels.map fw.lblLong) nClasses st.rates).1
        proportions :=
          (fw.assignLabels st.spikeRecord (st.labels.map fw.lblLong) nClasses st.rates).2.1
        rates :=
          (fw.assignLabels st.spikeRecord (st.labels.map fw.lblLong) nClasses st.rates).2.2
        labels := [] } := by
  unfold scoreBlock
  rw [if_pos ⟨hm, hs⟩]
  have hl : ((st.labels.map fw.lblLong).length : ℚ) = (u : ℚ) := by
    rw [List.length_map, hlen]
  dsimp only
  rw [hl]

theorem testStep_fields (fw : Framework C E Inp Asn Prp Rt Net) (gpu : Bool)
    (nClasses tm : ℕ) (assignments : Asn) (proportions : Prp)
    (batch : WaveDatum C E) (st : TestState Net) :
    ((testStep fw gpu nClasses tm assignments proportions batch st).1).accAll =
      st.accAll + (tSum (tEq [fw.lblLong batch.label]
        (fw.allActivity (st.spikeRecord.set 0 (fw.runNet st.net (fw.view batch.encodedImage)).2)
          assignments nClasses)) : ℚ) ∧
    ((testStep fw gpu nClasses tm assignments proportions batch st).1).accProp =
      st.accProp + (tSum (tEq [fw.lblLong batch.label]
        (fw.proportionWeighting
          (st.spikeRecord.set 0 (fw.runNet st.net (fw.view batch.encodedImage)).2)
          assignments proportions nClasses)) : ℚ) ∧
    ((testStep fw gpu nClasses tm assignments proportions batch st).1).cm =
      confStep gpu [fw.lblLong batch.label]
        (fw.allActivity (st.spikeRecord.set 0 (fw.runNet st.net (fw.view batch.encodedImage)).2)
          assignments nClasses) st.cm ∧
    ((testStep fw gpu nClasses tm assignments proportions batch st).1).spikeRecord =
      st.spikeRecord.set 0 (fw.runNet st.net (fw.view batch.encodedImage)).2 ∧
    ((testStep fw gpu nClasses tm assignments proportions batch st).1).net =
      fw.resetNet (fw.runNet st.net (fw.view batch.encodedImage)).1 :=
  ⟨rfl, rfl, rfl, rfl, rfl⟩

theorem testStep_indep (fw fw' : Framework C E Inp Asn Prp Rt Net)
    (hview : fw'.view = fw.view) (hrun : fw'.runNet = fw.runNet)
    (hreset : fw'.resetNet = fw.resetNet) (hlbl : fw'.lblLong = fw.lblLong)
    (hall : fw'.allActivity = fw.allActivity) (gpu : Bool) (nClasses tm : ℕ)
    (assignments : Asn) (proportions : Prp) (batch : WaveDatum C E)
    (st st' : TestState Net) (h1 : st'.accAll = st.accAll) (h2 : st'.cm = st.cm)
    (h3 : st'.spikeRecord = st.spikeRecord) (h4 : st'.net = st.net) :
    ((testStep fw' gpu nClasses tm assignments proportions batch st').1).accAll =
      ((testStep fw gpu nClasses tm assignments proportions batch st).1).accAll ∧
    ((testStep fw' gpu nClasses tm assignments proportions batch st').1).cm =
      ((testStep fw gpu nClasses tm assignments proportions batch st).1).cm ∧
    ((testStep fw' gpu nClasses tm assignments proportions batch st').1).spikeRecord =
      ((testStep fw gpu nClasses tm assignments proportions batch st).1).spikeRecord ∧
    ((testStep fw' gpu nClasses tm assignments proportions batch st').1).net =
      ((testStep fw gpu nClasses tm assignments proportions batch st).1).net := by
  refine ⟨?_, ?_, ?_, ?_⟩ <;>
    simp only [testStep, hview, hrun, hreset, hlbl, hall, h1, h2, h3, h4]

theorem testRunAll_indep (fw fw' : Framework C E Inp Asn Prp Rt Net)
    (hview : fw'.view = fw.view) (hrun : fw'.runNet = fw.runNet)
    (hreset : fw'.resetNet = fw.resetNet) (hlbl : fw'.lblLong = fw.lblLong)
    (hall : fw'.allActivity = fw.allActivity) (gpu : Bool) (nClasses tm : ℕ)
    (assignments : Asn) (proportions : Prp) (data : List (WaveDatum C E)) :
    ∀ (s0 : ℕ) (st st' : TestState Net), st'.accAll = st.accAll → st'.cm = st.cm →
      st'.spikeRecord = st.spikeRecord → st'.net = st.net →
      ((testRunAll fw' gpu nClasses tm assignments proportions s0 data st').1).accAll =
        ((testRunAll fw gpu nClasses tm assignments proportions s0 data st).1).accAll ∧
      ((testRunAll fw' gpu nClasses tm assignments proportions s0 data st').1).cm =
        ((testRunAll fw gpu nClasses tm assignments proportions s0 data st).1).cm := by
  induction data with
  | nil => intro s0 st st' h1 h2 h3 h4; exact ⟨h1, h2⟩
  | cons batch rest ih =>
    intro s0 st st' h1 h2 h3 h4
    obtain ⟨k1, k2, k3, k4⟩ := testStep_indep fw fw' hview hrun hreset hlbl hall gpu
      nClasses tm assignments proportions batch st st' h1 h2 h3 h4
    simp only [testRunAll]
    exact ih (s0 + 1) _ _ k1 k2 k3 k4

/-- Claim C1: for every line of the input waveform file, a line whose first
character is the hash mark contributes no sample; otherwise the line is split
on whitespace into complex-number tokens, an empty token list contributes no
sample, and for every non-empty token list the final token is parsed as a
complex number and taken as the sample's class label, while the fourth FFT
slice stops at index len-1 and hence excludes the label token (it is a slice
of the list with its last element dropped). -/
theorem claim1_parsing {Cx F E : Type} (parseC : List Char → Cx)
    (fftF : List Cx → List Cx) (cabs : Cx → F) (fmul : F → F → F) (intensity : F)
    (e : List F → E) (line : List Char) (rest : List (List Char)) :
    (line.head? = some '#' →
      waveLoop parseC fftF cabs fmul intensity (some e) (line :: rest) =
        waveLoop parseC fftF cabs fmul intensity (some e) rest) ∧
    (¬ line.head? = some '#' → pySplit line = [] →
      waveLoop parseC fftF cabs fmul intensity (some e) (line :: rest) =
        waveLoop parseC fftF cabs fmul intensity (some e) rest) ∧
    (∀ _ : ¬ line.head? = some '#', ∀ hne : pySplit line ≠ [],
      waveLoop parseC fftF cabs fmul intensity (some e) (line :: rest) =
        (waveLoop parseC fftF cabs fmul intensity (some e) rest).map
          (fun ws =>
            { encodedImage := e (linedataIntensity cabs fmul intensity
                (linedataFft fftF ((pySplit line).map parseC))),
              label := parseC ((pySplit line).getLast hne) } :: ws)) ∧
    (∀ linedata : List Cx,
      pySlice linedata 256 (linedata.length - 1) = linedata.dropLast.drop 256) := by
  refine ⟨fun h => waveLoop_comment parseC fftF cabs fmul intensity (some e) line rest h,
    fun hc he => waveLoop_empty parseC fftF cabs fmul intensity (some e) line rest hc he,
    fun hc hne => waveLoop_sample parseC fftF cabs fmul intensity e line rest hc hne,
    fun linedata => ?_⟩
  rw [pySlice, List.dropLast_eq_take]

/-- Witness for claim C1 at a concrete comment line and a concrete data line:
the comment line contributes no sample, and the two-token data line yields
one sample whose label is the parse of the final token. -/
theorem claim1_parsing_witness :
    ((['#', 'a'] : List Char).head? = some '#') ∧
    (¬ (['1', ' ', '2', '2'] : List Char).head? = some '#') ∧
    (pySplit ['1', ' ', '2', '2'] ≠ []) ∧
    waveLoop List.length id id Nat.mul 2 (some id) [['#', 'a']] =
      waveLoop List.length id id Nat.mul 2 (some id) [] ∧
    waveLoop List.length id id Nat.mul 2 (some id) [['1', ' ', '2', '2']] =
      (waveLoop List.length id id Nat.mul 2 (some id) []).map
        (fun ws =>
          { encodedImage := id (linedataIntensity id Nat.mul 2
              (linedataFft id ((pySplit ['1', ' ', '2', '2']).map List.length))),
            label := List.length ((pySplit ['1', ' ', '2', '2']).getLast (by decide)) } ::
              ws) :=
  ⟨by decide, by decide, by decide,
    (claim1_parsing List.length id id Nat.mul 2 id ['#', 'a'] []).1 (by decide),
    (claim1_parsing List.length id id Nat.mul 2 id ['1', ' ', '2', '2'] []).2.2.1
      (by decide) (by decide)⟩

/-- Claim C3: when the encoder name is none of the six recognized encoders,
the selection chain prints the error message, selects no encoder, and the
script proceeds: the file-reading loop runs until a line first contributes a
sample, at which point the use of the undefined encoder fails; a file with no
contributing line is processed to completion. -/
theorem claim3_unknown_encoder {Cx F E : Type} (parseC : List Char → Cx)
    (fftF : List Cx → List Cx) (cabs : Cx → F) (fmul : F → F → F) (intensity : F)
    (encImpl : EncoderKind → List F → E) (name : String)
    (h : name ∉ recognizedEncoders) :
    (selectEncoder name).1 = none ∧
    (selectEncoder name).2 = ["Error!! There is no such encoder!!"] ∧
    ∀ lines : List (List Char),
      (runParseStage parseC fftF cabs fmul intensity encImpl name lines).2 =
        (if lines.any lineContributes then Except.error () else Except.ok []) := by
  have hsel : selectEncoder name = (none, ["Error!! There is no such encoder!!"]) := by
    simp only [recognizedEncoders, List.mem_cons, List.not_mem_nil, or_false, not_or] at h
    obtain ⟨h1, h2, h3, h4, h5, h6⟩ := h
    unfold selectEncoder
    rw [if_neg h1, if_neg h2, if_neg h3, if_neg h4, if_neg h5, if_neg h6]
  refine ⟨by rw [hsel], by rw [hsel], fun lines => ?_⟩
  unfold runParseStage
  rw [hsel]
  exact waveLoop_none parseC fftF cabs fmul intensity lines

/-- Witness for claim C3 at the unrecognized name FooEncoder: the error
message is produced, no encoder is selected, and a file whose first
contributing line is its second line fails. -/
theorem claim3_unknown_encoder_witness :
    (("FooEncoder" : String) ∉ recognizedEncoders) ∧
    (selectEncoder "FooEncoder").1 = none ∧
    (selectEncoder "FooEncoder").2 = ["Error!! There is no such encoder!!"] ∧
    (runParseStage List.length id id Nat.mul 2 (fun _ => id) "FooEncoder"
        [['#', 'a'], ['7']]).2 =
      (if ([['#', 'a'], ['7']] : List (List Char)).any lineContributes then
        Except.error () else Except.ok ([] : List (WaveDatum ℕ (List ℕ)))) :=
  ⟨by decide,
    (claim3_unknown_encoder List.length id id Nat.mul 2 (fun _ => id) _ (by decide)).1,
    (claim3_unknown_encoder List.length id id Nat.mul 2 (fun _ => id) _ (by decide)).2.1,
    (claim3_unknown_encoder List.length id id Nat.mul 2 (fun _ => id) _
      (by decide)).2.2 [['#', 'a'], ['7']]⟩

theorem confAccum_swap (pairs : List (List ℤ × List ℤ)) :
    ∀ cmT cmF : ConfusionMatrix, cmT.TP = cmF.TN → cmT.FP = cmF.FN →
      (confAccum true pairs cmT).TP = (confAccum false pairs cmF).TN ∧
      (confAccum true pairs cmT).FP = (confAccum false pairs cmF).FN := by
  induction pairs with
  | nil => exact fun _ _ h1 h2 => ⟨h1, h2⟩
  | cons p rest ih =>
    intro cmT cmF h1 h2
    refine ih _ _ ?_ ?_ <;>
      simp only [confStep, pTensor, nTensor, if_pos rfl, Bool.false_eq_true, if_neg,
        if_true, if_false, h1, h2]

/-- Claim C4: in the testing loop, on gpu the positive-class tensor is all
zeros and the negative-class tensor all ones, off gpu the reverse; hence for
the same sequence of label tensors and all-activity predictions, the TP count
accumulated on gpu equals the TN count accumulated off gpu, and the FP count
on gpu equals the FN count off gpu. -/
theorem claim4_gpu_confusion_swap :
    (∀ n : ℕ, pTensor true n = List.replicate n 0 ∧ nTensor true n = List.replicate n 1 ∧
      pTensor false n = List.replicate n 1 ∧ nTensor false n = List.replicate n 0) ∧
    ∀ pairs : List (List ℤ × List ℤ),
      (confAccum true pairs confMatZero).TP = (confAccum false pairs confMatZero).TN ∧
      (confAccum true pairs confMatZero).FP = (confAccum false pairs confMatZero).FN := by
  refine ⟨fun n => ⟨rfl, rfl, rfl, rfl⟩, fun pairs => confAccum_swap pairs _ _ rfl rfl⟩

/-- Claim C5: for every parsed sample line, the feature vector passed to the
encoder is the concatenation, in order, of the FFTs of the token slices
[16:80], [96:160], [192:256] and [256:len-1], with each FFT output value
replaced by intensity times its complex magnitude. -/
theorem claim5_feature_vector {Cx F E : Type} (parseC : List Char → Cx)
    (fftF : List Cx → List Cx) (cabs : Cx → F) (fmul : F → F → F) (intensity : F)
    (e : List F → E) (line : List Char) (rest : List (List Char))
    (hc : ¬ line.head? = some '#') (hne : pySplit line ≠ []) :
    (∀ lf : List Cx, linedataIntensity cabs fmul intensity lf =
      lf.map (fun x => fmul intensity (cabs x))) ∧
    waveLoop parseC fftF cabs fmul intensity (some e) (line :: rest) =
      (waveLoop parseC fftF cabs fmul intensity (some e) rest).map
        (fun ws =>
          { encodedImage := e
              ((fftF (pySlice ((pySplit line).map parseC) 16 80) ++
                fftF (pySlice ((pySplit line).map parseC) 96 160) ++
                fftF (pySlice ((pySplit line).map parseC) 192 256) ++
                fftF (pySlice ((pySplit line).map parseC) 256
                  (((pySplit line).map parseC).length - 1))).map
                (fun x => fmul intensity (cabs x))),
            label := parseC ((pySplit line).getLast hne) } :: ws) := by
  have hint : ∀ lf : List Cx, linedataIntensity cabs fmul intensity lf =
      lf.map (fun x => fmul intensity (cabs x)) := by
    intro lf
    rw [linedataIntensity, pySlice, List.take_length, List.drop_zero]
  refine ⟨hint, ?_⟩
  rw [waveLoop_sample parseC fftF cabs fmul intensity e line rest hc hne, hint,
    linedataFft]

/-- Witness for claim C5 at a concrete two-token line. -/
theorem claim5_feature_vector_witness :
    (¬ (['1', ' ', '2', '2'] : List Char).head? = some '#') ∧
    (pySplit ['1', ' ', '2', '2'] ≠ []) ∧
    (∀ lf : List ℕ, linedataIntensity id Nat.mul 2 lf =
      lf.map (fun x => Nat.mul 2 (id x))) ∧
    waveLoop List.length id id Nat.mul 2 (some id) [['1', ' ', '2', '2']] =
      (waveLoop List.length id id Nat.mul 2 (some id) []).map
        (fun ws =>
          { encodedImage := id
              ((id (pySlice ((pySplit ['1', ' ', '2', '2']).map List.length) 16 80) ++
                id (pySlice ((pySplit ['1', ' ', '2', '2']).map List.length) 96 160) ++
                id (pySlice ((pySplit ['1', ' ', '2', '2']).map List.length) 192 256) ++
                id (pySlice ((pySplit ['1', ' ', '2', '2']).map List.length) 256
                  (((pySplit ['1', ' ', '2', '2']).map List.length).length - 1))).map
                (fun x => Nat.mul 2 (id x))),
            label := List.length ((pySplit ['1', ' ', '2', '2']).getLast (by decide)) } ::
              ws) :=
  ⟨by decide, by decide,
    (claim5_feature_vector List.length id id Nat.mul 2 id ['1', ' ', '2', '2'] []
      (by decide) (by decide)).1,
    (claim5_feature_vector List.length id id Nat.mul 2 id ['1', ' ', '2', '2'] []
      (by decide) (by decide)).2⟩

/-- Claim C2: during training, at every step index that is a positive
multiple of the update interval (and never at step 0), the script first
appends one all-activity and one proportion-weighting accuracy percentage
computed over exactly the last update_interval accumulated labels, then
updates the assignments, proportions and rates from the spike record and
those labels, and then empties the accumulated label list.  The state at
that point of an epoch is the loop run over the first s samples, starting
with an emptied label list. -/
theorem claim2_training_scoring (fw : Framework C E Inp Asn Prp Rt Net)
    (nTrain u nClasses tm : ℕ) (hu : 0 < u) (data : List (WaveDatum C E))
    (st0 : TrainState C Asn Prp Rt Net) (s : ℕ) (hm : s % u = 0) (hs : 0 < s)
    (hdl : s ≤ data.length) (hb : s ≤ nTrain + 1) :
    ((trainEpoch fw nTrain u nClasses tm (data.take s) st0).1).labels.length = u ∧
    scoreBlock fw u nClasses s ((trainEpoch fw nTrain u nClasses tm (data.take s) st0).1) =
      { (trainEpoch fw nTrain u nClasses tm (data.take s) st0).1 with
        accAll := ((trainEpoch fw nTrain u nClasses tm (data.take s) st0).1).accAll ++
          [100 * (tSum (tEq
            (((trainEpoch fw nTrain u nClasses tm (data.take s) st0).1).labels.map fw.lblLong)
            (fw.allActivity
              ((trainEpoch fw nTrain u nClasses tm (data.take s) st0).1).spikeRecord
              ((trainEpoch fw nTrain u nClasses tm (data.take s) st0).1).assignments
              nClasses)) : ℚ) / (u : ℚ)]
        accProp := ((trainEpoch fw nTrain u nClasses tm (data.take s) st0).1).accProp ++
          [100 * (tSum (tEq
            (((trainEpoch fw nTrain u nClasses tm (data.take s) st0).1).labels.map fw.lblLong)
            (fw.proportionWeighting
              ((trainEpoch fw nTrain u nClasses tm (data.take s) st0).1).spikeRecord
              ((trainEpoch fw nTrain u nClasses tm (data.take s) st0).1).assignments
              ((trainEpoch fw nTrain u nClasses tm (data.take s) st0).1).proportions
              nClasses)) : ℚ) / (u : ℚ)]
        assignments := (fw.assignLabels
          ((trainEpoch fw nTrain u nClasses tm (data.take s) st0).1).spikeRecord
          (((trainEpoch fw nTrain u nClasses tm (data.take s) st0).1).labels.map fw.lblLong)
          nClasses ((trainEpoch fw nTrain u nClasses tm (data.take s) st0).1).rates).1
        proportions := (fw.assignLabels
          ((trainEpoch fw nTrain u nClasses tm (data.take s) st0).1).spikeRecord
          (((trainEpoch fw nTrain u nClasses tm (data.take s) st0).1).labels.map fw.lblLong)
          nClasses ((trainEpoch fw nTrain u nClasses tm (data.take s) st0).1).rates).2.1
        rates := (fw.assignLabels
          ((trainEpoch fw nTrain u nClasses tm (data.take s) st0).1).spikeRecord
          (((trainEpoch fw nTrain u nClasses tm (data.take s) st0).1).labels.map fw.lblLong)
          nClasses ((trainEpoch fw nTrain u nClasses tm (data.take s) st0).1).rates).2.2
        labels := [] } ∧
    scoreBlock fw u nClasses 0 st0 = st0 := by
  have htl : (data.take s).length = s := by rw [List.length_take]; omega
  have hlen : ((trainEpoch fw nTrain u nClasses tm (data.take s) st0).1).labels.length = u := by
    unfold trainEpoch
    rw [trainLoop_eq_trainRunAll fw nTrain u nClasses tm (data.take s) 0 _
      (by rw [htl]; omega)]
    have hstart : ({ st0 with labels := ([] : List C) } :
        TrainState C Asn Prp Rt Net).labels.length = labLen u 0 := rfl
    rw [trainRunAll_labels_len fw u nClasses tm hu (data.take s) 0 _ hstart, htl,
      Nat.zero_add, labLen_flush u s hu hs hm]
  refine ⟨hlen, scoreBlock_flush fw u nClasses s _ hm hs hlen, ?_⟩
  unfold scoreBlock
  rw [if_neg (by omega)]

/-- Concrete witness fixtures for the loop theorems. -/
def fwW : Framework Unit Unit Unit Unit Unit Unit Unit :=
  { view := fun _ => ()
    runNet := fun n _ => (n, [[1], [0]])
    resetNet := id
    lblLong := fun _ => 0
    allActivity := fun _ _ _ => [0]
    proportionWeighting := fun _ _ _ _ => [0]
    assignLabels := fun _ _ _ _ => ((), (), ()) }

/-- A second concrete framework, differing from the first only in the
proportion-weighting evaluation. -/
def fwW2 : Framework Unit Unit Unit Unit Unit Unit Unit :=
  { fwW with proportionWeighting := fun _ _ _ _ => [1] }

/-- A concrete initial training state. -/
def stW : TrainState Unit Unit Unit Unit Unit :=
  { labels := [], accAll := [], accProp := [], assignments := ()
    proportions := (), rates := (), spikeRecord := initSpikeRecord 1 2 1, net := () }

/-- A concrete initial testing state. -/
def tstW : TestState Unit :=
  { accAll := 0, accProp := 0, cm := confMatZero
    spikeRecord := initSpikeRecord 1 2 1, net := () }

/-- A concrete sample. -/
def dW : WaveDatum Unit Unit := { encodedImage := (), label := () }

/-- Witness for claim C2 with update interval 1 at flush step 1 of a
two-sample epoch: the accumulated label list has exactly one label there. -/
theorem claim2_training_scoring_witness :
    0 < 1 ∧ 1 % 1 = 0 ∧ (1 : ℕ) ≤ ([dW, dW] : List (WaveDatum Unit Unit)).length ∧
    (1 : ℕ) ≤ 5 + 1 ∧
    ((trainEpoch fwW 5 1 2 7 (([dW, dW] : List (WaveDatum Unit Unit)).take 1) stW).1).labels.length = 1 :=
  ⟨by decide, by decide, by decide, by decide,
    (claim2_training_scoring fwW 5 1 2 7 (by decide) [dW, dW] stW 1
      (by decide) (by decide) (by decide) (by decide)).1⟩

/-- Claim C6: the spike record used for scoring is a buffer of shape
(update_interval, time/dt, n_neurons) allocated before the training loop;
the training step with index step writes that sample's excitatory spikes
into row step mod update_interval (the row written u steps earlier, since
(step+u) mod u = step mod u); and no training-loop operation changes the
buffer's shape. -/
theorem claim6_spike_record (fw : Framework C E Inp Asn Prp Rt Net)
    (nTrain u nClasses tm dt n : ℕ)
    (hrow : ∀ (net : Net) (inp : Inp), matShape ((fw.runNet net inp).2) (tm / dt) n) :
    bufShape (initSpikeRecord u (tm / dt) n) u (tm / dt) n ∧
    (∀ (step : ℕ) (batch : WaveDatum C E) (st : TrainState C Asn Prp Rt Net),
      ((trainStep fw u nClasses tm step batch st).1).spikeRecord =
        st.spikeRecord.set (step % u) (fw.runNet st.net (fw.view batch.encodedImage)).2) ∧
    (∀ step : ℕ, (step + u) % u = step % u) ∧
    (∀ (data : List (WaveDatum C E)) (s0 : ℕ) (st : TrainState C Asn Prp Rt Net),
      bufShape st.spikeRecord u (tm / dt) n →
      bufShape (((trainLoop fw nTrain u nClasses tm s0 data st).1).spikeRecord)
        u (tm / dt) n) := by
  refine ⟨initSpikeRecord_shape u (tm / dt) n,
    fun step batch st => trainStep_spikeRecord fw u nClasses tm step batch st,
    fun step => Nat.add_mod_right step u,
    fun data s0 st h =>
      trainLoop_bufShape fw nTrain u nClasses tm u (tm / dt) n hrow data s0 st h⟩

/-- Witness for claim C6 with a one-row buffer of 2-by-1 spike records. -/
theorem claim6_spike_record_witness :
    (∀ (net inp : Unit), matShape ((fwW.runNet net inp).2) (2 / 1) 1) ∧
    bufShape (initSpikeRecord 1 (2 / 1) 1) 1 (2 / 1) 1 :=
  have hrow : ∀ (net inp : Unit), matShape ((fwW.runNet net inp).2) (2 / 1) 1 :=
    fun _ _ => ⟨rfl, fun r hr => by fin_cases hr <;> rfl⟩
  ⟨hrow, (claim6_spike_record fwW 5 1 2 2 1 1 hrow).1⟩

/-- Claim C7: in the training loop and the testing loop alike, every sample
is simulated by exactly one network run call of the fixed number of
timesteps given by the time argument, followed by one reset before the next
sample: the event trace of either loop is run-then-reset repeated once per
sample. -/
theorem claim7_one_run_per_sample (fw : Framework C E Inp Asn Prp Rt Net)
    (gpu : Bool) (nTrain nTest u nClasses tm : ℕ) (assignments : Asn)
    (proportions : Prp) :
    (∀ (data : List (WaveDatum C E)) (s0 : ℕ) (st : TrainState C Asn Prp Rt Net),
      s0 + data.length ≤ nTrain + 1 →
      (trainLoop fw nTrain u nClasses tm s0 data st).2 = runResetTrace tm data.length) ∧
    (∀ (data : List (WaveDatum C E)) (s0 : ℕ) (st : TestState Net),
      s0 + data.length ≤ nTest + 1 →
      (testLoop fw gpu nTest nClasses tm assignments proportions s0 data st).2 =
        runResetTrace tm data.length) := by
  constructor
  · intro data s0 st h
    rw [trainLoop_eq_trainRunAll fw nTrain u nClasses tm data s0 st h,
      trainRunAll_events]
  · intro data s0 st h
    rw [testLoop_eq_testRunAll fw gpu nTest nClasses tm assignments proportions data s0 st h,
      testRunAll_events]

/-- Witness for claim C7: a two-sample training pass and a two-sample testing
pass each produce exactly two run events of 7 timesteps, each followed by a
reset. -/
theorem claim7_one_run_per_sample_witness :
    0 + ([dW, dW] : List (WaveDatum Unit Unit)).length ≤ 5 + 1 ∧
    (trainLoop fwW 5 1 2 7 0 [dW, dW] stW).2 = runResetTrace 7 2 ∧
    (testLoop fwW true 5 2 7 () () 0 [dW, dW] tstW).2 = runResetTrace 7 2 :=
  ⟨by decide,
    (claim7_one_run_per_sample fwW true 5 5 1 2 7 () ()).1 [dW, dW] 0 stW (by decide),
    (claim7_one_run_per_sample fwW true 5 5 1 2 7 () ()).2 [dW, dW] 0 tstW (by decide)⟩

/-- Claim C8: the script computes two metric families.  During training, at
each flush step one all-activity and one proportion-weighting accuracy
percentage are appended to the two accuracy lists.  During testing, the two
correct-prediction counts are accumulated per sample, and the confusion
matrix is accumulated from the all-activity prediction only: two frameworks
agreeing on everything but the proportion-weighting evaluation produce the
same confusion matrix over any testing pass. -/
theorem claim8_metric_families (fw fw' : Framework C E Inp Asn Prp Rt Net)
    (hview : fw'.view = fw.view) (hrun : fw'.runNet = fw.runNet)
    (hreset : fw'.resetNet = fw.resetNet) (hlbl : fw'.lblLong = fw.lblLong)
    (hall : fw'.allActivity = fw.allActivity) (gpu : Bool) (u nClasses tm : ℕ)
    (assignments : Asn) (proportions : Prp) :
    (∀ (step : ℕ) (st : TrainState C Asn Prp Rt Net), step % u = 0 → 0 < step →
      ∃ a p : ℚ, (scoreBlock fw u nClasses step st).accAll = st.accAll ++ [a] ∧
        (scoreBlock fw u nClasses step st).accProp = st.accProp ++ [p]) ∧
    (∀ (batch : WaveDatum C E) (st : TestState Net),
      ((testStep fw gpu nClasses tm assignments proportions batch st).1).accAll =
        st.accAll + (tSum (tEq [fw.lblLong batch.label]
          (fw.allActivity
            (st.spikeRecord.set 0 (fw.runNet st.net (fw.view batch.encodedImage)).2)
            assignments nClasses)) : ℚ) ∧
      ((testStep fw gpu nClasses tm assignments proportions batch st).1).accProp =
        st.accProp + (tSum (tEq [fw.lblLong batch.label]
          (fw.proportionWeighting
            (st.spikeRecord.set 0 (fw.runNet st.net (fw.view batch.encodedImage)).2)
            assignments proportions nClasses)) : ℚ) ∧
      ((testStep fw gpu nClasses tm assignments proportions batch st).1).cm =
        confStep gpu [fw.lblLong batch.label]
          (fw.allActivity
            (st.spikeRecord.set 0 (fw.runNet st.net (fw.view batch.encodedImage)).2)
            assignments nClasses) st.cm) ∧
    (∀ (data : List (WaveDatum C E)) (s0 : ℕ) (st : TestState Net),
      ((testRunAll fw' gpu nClasses tm assignments proportions s0 data st).1).cm =
        ((testRunAll fw gpu nClasses tm assignments proportions s0 data st).1).cm) := by
  refine ⟨?_, ?_, ?_⟩
  · intro step st h1 h2
    unfold scoreBlock
    rw [if_pos ⟨h1, h2⟩]
    exact ⟨_, _, rfl, rfl⟩
  · intro batch st
    obtain ⟨k1, k2, k3, _, _⟩ :=
      testStep_fields fw gpu nClasses tm assignments proportions batch st
    exact ⟨k1, k2, k3⟩
  · intro data s0 st
    exact (testRunAll_indep fw fw' hview hrun hreset hlbl hall gpu nClasses tm
      assignments proportions data s0 st st rfl rfl rfl rfl).2

/-- Witness for claim C8: the two concrete frameworks differ only in the
proportion-weighting evaluation and produce the same confusion matrix over a
one-sample testing pass. -/
theorem claim8_metric_families_witness :
    fwW2.view = fwW.view ∧ fwW2.runNet = fwW.runNet ∧ fwW2.resetNet = fwW.resetNet ∧
    fwW2.lblLong = fwW.lblLong ∧ fwW2.allActivity = fwW.allActivity ∧
    ((testRunAll fwW2 true 2 7 () () 0 [dW] tstW).1).cm =
      ((testRunAll fwW true 2 7 () () 0 [dW] tstW).1).cm :=
  ⟨rfl, rfl, rfl, rfl, rfl,
    (claim8_metric_families fwW fwW2 rfl rfl rfl rfl rfl true 1 2 7 () ()).2.2 [dW] 0 tstW⟩

/-- Claim C9: both loops guard the step index with a bound check: the
training loop breaks out of iteration as soon as the step index exceeds
n_train, and the testing loop breaks out as soon as the step index exceeds
n_test, leaving the state unchanged and performing no simulation events. -/
theorem claim9_loop_guards (fw : Framework C E Inp Asn Prp Rt Net) (gpu : Bool)
    (nTrain nTest u nClasses tm s0 s1 : ℕ) (assignments : Asn) (proportions : Prp)
    (h0 : nTrain < s0) (h1 : nTest < s1) (b0 b1 : WaveDatum C E)
    (rest0 rest1 : List (WaveDatum C E)) (st : TrainState C Asn Prp Rt Net)
    (tst : TestState Net) :
    trainLoop fw nTrain u nClasses tm s0 (b0 :: rest0) st = (st, []) ∧
    testLoop fw gpu nTest nClasses tm assignments proportions s1 (b1 :: rest1) tst =
      (tst, []) := by
  constructor
  · simp only [trainLoop, if_pos h0]
  · simp only [testLoop, if_pos h1]

/-- Witness for claim C9: at step 7 with bound 5, either loop stops
immediately. -/
theorem claim9_loop_guards_witness :
    (5 : ℕ) < 7 ∧
    trainLoop fwW 5 1 2 7 7 [dW] stW = (stW, []) ∧
    testLoop fwW true 5 2 7 () () 7 [dW] tstW = (tstW, []) :=
  ⟨by decide,
    (claim9_loop_guards fwW true 5 5 1 2 7 7 7 () () (by decide) (by decide)
      dW dW [] [] stW tstW).1,
    (claim9_loop_guards fwW true 5 5 1 2 7 7 7 () () (by decide) (by decide)
      dW dW [] [] stW tstW).2⟩

/-- Claim C10: n_train and n_test are reassigned to the sizes of the train
and test splits before either loop starts, so the step index never exceeds
its bound: the guarded loops coincide with the guard-free loops that process
every sample of the respective split exactly once (one run event per
sample), and the command-line n_train and n_test values do not bound the
number of samples processed. -/
theorem claim10_bounds_unreachable (fw : Framework C E Inp Asn Prp Rt Net)
    (gpu : Bool) (u nClasses tm cmdNTrain cmdNTest : ℕ) (assignments : Asn)
    (proportions : Prp) (trainData testData : List (WaveDatum C E))
    (st : TrainState C Asn Prp Rt Net) (tst : TestState Net) :
    effectiveNTrain cmdNTrain trainData = trainData.length ∧
    effectiveNTest cmdNTest testData = testData.length ∧
    trainLoop fw (effectiveNTrain cmdNTrain trainData) u nClasses tm 0 trainData st =
      trainRunAll fw u nClasses tm 0 trainData st ∧
    testLoop fw gpu (effectiveNTest cmdNTest testData) nClasses tm assignments
        proportions 0 testData tst =
      testRunAll fw gpu nClasses tm assignments proportions 0 testData tst ∧
    (trainRunAll fw u nClasses tm 0 trainData st).2 = runResetTrace tm trainData.length ∧
    (testRunAll fw gpu nClasses tm assignments proportions 0 testData tst).2 =
      runResetTrace tm testData.length := by
  refine ⟨rfl, rfl, ?_, ?_, trainRunAll_events fw u nClasses tm trainData 0 st,
    testRunAll_events fw gpu nClasses tm assignments proportions testData 0 tst⟩
  · exact trainLoop_eq_trainRunAll fw _ u nClasses tm trainData 0 st
      (by unfold effectiveNTrain; omega)
  · exact testLoop_eq_testRunAll fw gpu _ nClasses tm assignments proportions testData 0 tst
      (by unfold effectiveNTest; omega)

end WaveClassifier
